import Mathlib

/-!
Verification development for the colab-clients repository.

Embedded components:
1. The schema projector of src/bigquery_client.py
   (BigQueryClient.filter_json_to_schema), over a tagged JSON value model.
2. The paginated retrieval engine with bounded backoff of spec section 4.1,
   whose per-vendor instances live in src/okta_client.py and
   src/entra_client.py.
3. The row mutation performed by BigQueryClient.insert_rows_json.
4. The Retry-After header parsing done with Python int() in
   src/okta_client.py and src/entra_client.py.
-/

/-! # JSON value model

A tagged model of Python JSON-like data. Python distinguishes int and float;
the projector only ever tests membership in the tuple
(str, int, float, bool) and never computes with numbers, so a single
numeric constructor is adequate. Objects are association lists; Python
dicts have unique keys, lookups take the first match.
-/

inductive Json where
  | null : Json
  | bool (b : Bool) : Json
  | num (n : Int) : Json
  | str (s : String) : Json
  | arr (items : List Json) : Json
  | obj (entries : List (String × Json)) : Json
deriving Repr

/-- True exactly for the null value. -/
def Json.isNull : Json → Bool
  | .null => true
  | _ => false

/-- Mirrors isinstance(v, (str, int, float, bool)) on a JSON value. -/
def Json.isPrimitive : Json → Bool
  | .bool _ => true
  | .num _ => true
  | .str _ => true
  | _ => false

/-- Mirrors isinstance(v, (str, int, float, bool, type(None))). -/
def Json.isScalarLike : Json → Bool
  | .null => true
  | .bool _ => true
  | .num _ => true
  | .str _ => true
  | _ => false

/-- True exactly for mapping (dict) values. -/
def Json.isObj : Json → Bool
  | .obj _ => true
  | _ => false

/-- Python dict.get on an association list: the value stored at the key,
or null when the key is absent. An explicitly stored null is thus
indistinguishable from an absent key, exactly as in the source, which
tests the result of json_obj.get(field_name) with "is None". -/
def jget (kvs : List (String × Json)) (name : String) : Json :=
  match kvs with
  | [] => Json.null
  | (k, v) :: rest => if k = name then v else jget rest name

/-! # Schema model

A BigQuery-style schema is a list of field descriptors. Each descriptor in
the source is a dict with a mandatory "name" and "type" (indexing them
raises on absence, so a well-formed schema provides both), an optional
"mode" (read with .get, so absence yields none), and an optional "fields"
sub-schema list (tested with membership).
-/

inductive FieldSpec where
  | mk (name : String) (type : String) (mode : Option String)
      (fields : Option (List FieldSpec)) : FieldSpec
deriving Repr

def FieldSpec.name : FieldSpec → String
  | .mk n _ _ _ => n

def FieldSpec.type : FieldSpec → String
  | .mk _ t _ _ => t

def FieldSpec.mode : FieldSpec → Option String
  | .mk _ _ m _ => m

def FieldSpec.fields : FieldSpec → Option (List FieldSpec)
  | .mk _ _ _ f => f

/-- Last element of the list carrying the given field name, if any. -/
def lastWithName (n : String) : List FieldSpec → Option FieldSpec
  | [] => none
  | f :: rest =>
    match lastWithName n rest with
    | some g => some g
    | none => if f.name = n then some f else none

/-- Auxiliary recursion for dedupSchema, carrying the set of names already
emitted. -/
def dedupAux : List FieldSpec → List String → List FieldSpec
  | [], _ => []
  | f :: rest, seen =>
    if f.name ∈ seen then dedupAux rest seen
    else ((lastWithName f.name rest).getD f) :: dedupAux rest (f.name :: seen)

/-- The source builds a dict comprehension keyed by field name before
iterating. Python dict semantics: keys appear in first-occurrence order,
and a duplicated key holds the value of its last occurrence. -/
def dedupSchema (schema : List FieldSpec) : List FieldSpec :=
  dedupAux schema []

/-! # The schema projector

Embedding of BigQueryClient.filter_json_to_schema
(src/bigquery_client.py lines 101-157). The per-field work is split out:
filterFields walks the deduplicated schema, filterField handles one field
given the value json_obj.get(name) returned for it, projectItems is the
list comprehension over a REPEATED RECORD value, and primFieldVal is the
non-RECORD tail of the per-field if/elif chain.
-/

/-- The value a dict lookup returns is never larger than the dict. -/
theorem sizeOf_jget_le (kvs : List (String × Json)) (n : String) :
    sizeOf (jget kvs n) ≤ sizeOf kvs := by
  induction kvs with
  | nil => simp [jget]
  | cons kv rest ih =>
    obtain ⟨k, v⟩ := kv
    simp only [jget]
    split
    · simp; omega
    · simp; omega

/-- Handling of a field that is not a nested RECORD (either its type is
not RECORD or it carries no sub-fields), for a non-null value: the
repeated-primitive and primitive branches of the source. -/
def primFieldVal (value : Json) (name : String) (mode : Option String) :
    List (String × Json) :=
  if mode = some "REPEATED" then
    match value with
    | .arr items => [(name, Json.arr (items.filter Json.isPrimitive))]
    | _ => [(name, Json.arr [])]
  else
    if value.isScalarLike then [(name, value)]
    else [(name, Json.null)]

mutual

/-- Embedding of filter_json_to_schema: a non-dict input yields an empty
object; a dict is filtered field by field over the name-deduplicated
schema. -/
def filter_json_to_schema (j : Json) (schema : List FieldSpec) : Json :=
  match j with
  | .obj kvs => Json.obj (filterFields kvs (dedupSchema schema))
  | _ => Json.obj []
termination_by (sizeOf j, 0)

/-- One loop iteration per schema field, in order; each field contributes
zero or one output entries. -/
def filterFields (kvs : List (String × Json)) :
    List FieldSpec → List (String × Json)
  | [] => []
  | f :: rest => filterField (jget kvs f.name) f ++ filterFields kvs rest
termination_by fields => (sizeOf kvs, sizeOf fields)
decreasing_by
  all_goals simp_wf
  all_goals
    first
      | exact Prod.Lex.right _ (by omega)
      | (rcases Nat.eq_or_lt_of_le (sizeOf_jget_le kvs f.name) with h | h
         · rw [h]
           exact Prod.Lex.right _ (by omega)
         · exact Prod.Lex.left _ _ h)

/-- The body of the source loop for one field, applied to the value the
input dict holds at the field name (null when absent). -/
def filterField (value : Json) : FieldSpec → List (String × Json)
  | .mk name ty mode fieldsOpt =>
    if value.isNull then
      if mode = some "REQUIRED" then [(name, Json.null)] else []
    else
      match fieldsOpt with
      | some subfs =>
        if ty = "RECORD" then
          if mode = some "REPEATED" then
            match value with
            | .arr items => [(name, Json.arr (projectItems items subfs))]
            | _ => [(name, Json.arr [])]
          else
            match value with
            | .obj ovs => [(name, filter_json_to_schema (Json.obj ovs) subfs)]
            | _ => [(name, Json.null)]
        else primFieldVal value name mode
      | none => primFieldVal value name mode
termination_by f => (sizeOf value, sizeOf f)

/-- The comprehension over a REPEATED RECORD value: non-dict items are
silently dropped, dict items are recursively projected. -/
def projectItems : List Json → List FieldSpec → List Json
  | [], _ => []
  | item :: rest, subfs =>
    match item with
    | .obj o => filter_json_to_schema (Json.obj o) subfs :: projectItems rest subfs
    | _ => projectItems rest subfs
termination_by items _ => (sizeOf items, 0)

end

/-! # Python int() on strings

The 429 handlers in src/okta_client.py (line 55) and src/entra_client.py
(line 154) run int(response.headers.get("Retry-After", 1)). When the
header is absent the argument is already the integer 1; when it is
present, int() parses the string: surrounding whitespace is stripped, an
optional sign is allowed, and the digits may be separated by single
underscores. Any other shape raises ValueError. Modelled here over ASCII
strings.
-/

/-- Digit run acceptor for pyIntOfString: consumes digits where a single
underscore may stand between two digits. -/
def pyDigitsGo (acc : Nat) : List Char → Option Nat
  | [] => some acc
  | '_' :: c :: cs =>
    if c.isDigit then pyDigitsGo (acc * 10 + (c.toNat - 48)) cs else none
  | '_' :: [] => none
  | c :: cs =>
    if c.isDigit then pyDigitsGo (acc * 10 + (c.toNat - 48)) cs else none

/-- A nonempty digit sequence with optional single internal underscores. -/
def pyDigits : List Char → Option Nat
  | [] => none
  | c :: cs => if c.isDigit then pyDigitsGo (c.toNat - 48) cs else none

/-- Optional sign followed by digits. -/
def pySignedDigits : List Char → Option Int
  | '+' :: cs => (pyDigits cs).map (Int.ofNat)
  | '-' :: cs => (pyDigits cs).map (fun n => -(n : Int))
  | cs => (pyDigits cs).map (Int.ofNat)

/-- Strip leading and trailing whitespace from a character list. -/
def pyStrip (cs : List Char) : List Char :=
  ((cs.dropWhile Char.isWhitespace).reverse.dropWhile Char.isWhitespace).reverse

/-- Python int(s) for a string s: some n on success, none when int()
would raise ValueError. -/
def pyIntOfString (s : String) : Option Int :=
  pySignedDigits (pyStrip s.data)

/-! # The paginated retrieval engine

Modelled from the spec: section 4.1 defines retrieve_all, the single
generic traversal that the spec distills from the per-vendor loops in
src/okta_client.py and src/entra_client.py (which return bare lists and
disagree on error policy); the reason tags completed,
rate_limited_exhausted, http_error and stalled, the uniform 2xx success
test, the discard-partials policy on HTTP errors, and the engine-wide
stalled-link guard exist only in the spec. A Page is one HTTP response
already passed through the vendor extractors of spec section 6: status,
the Retry-After header, the raw body, the extracted record list, and the
extracted next-page descriptor (none when terminal). A traversal is run
against a finite script, the sequence of responses the server would give
to the successive requests; running off the script marks divergence of
the model, not a result of the engine.
-/

structure Page where
  status : Nat
  retryAfter : Option String
  body : String
  records : List Json
  next : Option String
deriving Repr

/-- Termination reasons of spec section 4.1 step 3. -/
inductive Reason where
  | completed : Reason
  | rate_limited_exhausted : Reason
  | http_error (status : Nat) (body : String) : Reason
  | stalled : Reason
deriving Repr, DecidableEq

/-- Traversal state: the page descriptor still to fetch (none when the
traversal is finished), the per-page retry counter, and the records
accumulated so far. -/
structure EngineState where
  current : Option String
  attempts : Nat
  records : List Json
deriving Repr

/-- Outcome of one loop iteration. -/
inductive StepResult where
  | sleepRetry (wait : Int) (s : EngineState) : StepResult
  | advance (s : EngineState) : StepResult
  | done (records : List Json) (reason : Reason) : StepResult
  | parseError (header : String) : StepResult
deriving Repr

/-- 2xx success test of spec section 4.1 step c. -/
def is2xx (status : Nat) : Bool :=
  200 ≤ status && status < 300

/-- Exact backoff formula shared by src/okta_client.py lines 55-57 and
src/entra_client.py lines 154-156: the maximum of the parsed Retry-After
value and min(2 ** attempts, 60). -/
def backoffWait (retryAfter : Int) (attempts : Nat) : Int :=
  max retryAfter (min ((2 : Int) ^ attempts) 60)

/-- One iteration of the engine loop on the response p obtained for the
descriptor d currently held in s (so s.current = some d at call sites).
Order of tests follows spec section 4.1: 429 first, then other non-2xx,
then the success path with the stalled-link guard. -/
def engineStep (maxRetries : Nat) (s : EngineState) (d : String) (p : Page) :
    StepResult :=
  if p.status = 429 then
    if maxRetries ≤ s.attempts then
      .done s.records .rate_limited_exhausted
    else
      match p.retryAfter with
      | none =>
        .sleepRetry (backoffWait 1 s.attempts)
          { s with attempts := s.attempts + 1 }
      | some h =>
        match pyIntOfString h with
        | some ra =>
          .sleepRetry (backoffWait ra s.attempts)
            { s with attempts := s.attempts + 1 }
        | none => .parseError h
  else if is2xx p.status then
    let recs := s.records ++ p.records
    match p.next with
    | some d2 =>
      if d2 = d then .done recs .stalled
      else .advance { current := some d2, attempts := 0, records := recs }
    | none => .advance { current := none, attempts := 0, records := recs }
  else
    .done [] (.http_error p.status p.body)

/-- Result of a whole traversal: a normal return carries the records, the
reason tag and the chronological list of backoff sleeps; valueError is
the uncaught Python ValueError escaping from int() on a malformed
Retry-After header; outOfScript signals only that the supplied response
script was too short for the traversal. -/
inductive RunResult where
  | ok (records : List Json) (reason : Reason) (sleeps : List Int) : RunResult
  | valueError (header : String) : RunResult
  | outOfScript : RunResult
deriving Repr

/-- Modelled from the spec: the retrieve_all loop of section 4.1, driven
by a finite response script. Each iteration consumes one response; a
backoff retry also consumes one (the repeated request is answered by the
next script entry) and prepends its wait to the sleep log. -/
def runEngine (maxRetries : Nat) (s : EngineState) :
    List Page → RunResult
  | [] =>
    match s.current with
    | none => .ok s.records .completed []
    | some _ => .outOfScript
  | p :: rest =>
    match s.current with
    | none => .ok s.records .completed []
    | some d =>
      match engineStep maxRetries s d p with
      | .sleepRetry w s' =>
        match runEngine maxRetries s' rest with
        | .ok r reason ws => .ok r reason (w :: ws)
        | other => other
      | .advance s' => runEngine maxRetries s' rest
      | .done recs reason => .ok recs reason []
      | .parseError h => .valueError h

/-- A response script that traverses cleanly from descriptor d: every
fetch succeeds with 2xx, every page but the last names a fresh next
descriptor (so the stalled guard never fires), and the last page is
terminal. -/
def goodChain (d : String) : List Page → Bool
  | [] => false
  | p :: rest =>
    is2xx p.status &&
      match p.next with
      | none => rest.isEmpty
      | some d2 => !(d2 = d) && goodChain d2 rest

/-! # Row mutation of insert_rows_json

Embedding of the add_record_load_time block of
BigQueryClient.insert_rows_json (src/bigquery_client.py lines 77-80): the
method walks the very list object the caller passed and assigns
row['record_load_time'] on each row dict before any insertion happens.
The mutation is modelled as the value of the caller's list after the
call; datetime.datetime.utcnow().isoformat() is modelled as a clock
giving the timestamp string observed while processing row i.
-/

/-- Python dict item assignment on an association list: an existing key
keeps its position and receives the new value, a fresh key is appended at
the end. -/
def pySetItem (row : List (String × Json)) (k : String) (v : Json) :
    List (String × Json) :=
  match row with
  | [] => [(k, v)]
  | (k0, v0) :: rest =>
    if k0 = k then (k, v) :: rest else (k0, v0) :: pySetItem rest k v

/-- The caller's json_rows list after the mutation loop of
insert_rows_json: unchanged when add_record_load_time is false, otherwise
every row has record_load_time set to the clock reading for its index. -/
def insertRowsMutation (clock : Nat → String) (addRecordLoadTime : Bool)
    (jsonRows : List (List (String × Json))) : List (List (String × Json)) :=
  if addRecordLoadTime then
    jsonRows.enum.map fun iv =>
      pySetItem iv.2 "record_load_time" (Json.str (clock iv.1))
  else jsonRows

/-! # Mode strictness

The restriction under which re-projection is the identity on projected
mappings: every field, at every nesting depth, is REQUIRED or REPEATED.
-/

mutual

/-- A field whose mode is REQUIRED or REPEATED, with strict sub-fields. -/
def fieldStrict : FieldSpec → Bool
  | .mk _ _ mode fieldsOpt =>
    (mode == some "REQUIRED" || mode == some "REPEATED") &&
      (match fieldsOpt with
       | some subfs => allStrict subfs
       | none => true)

/-- All fields of a schema are strict. -/
def allStrict : List FieldSpec → Bool
  | [] => true
  | f :: rest => fieldStrict f && allStrict rest

end

/-! # Basic lemmas about lookups and the projector -/

theorem jget_cons_self (n : String) (v : Json) (tl : List (String × Json)) :
    jget ((n, v) :: tl) n = v := by
  simp [jget]

theorem jget_cons_ne (k n : String) (v : Json) (tl : List (String × Json))
    (h : k ≠ n) : jget ((k, v) :: tl) n = jget tl n := by
  simp [jget, h]

theorem jget_eq_null_of_names (kvs : List (String × Json)) (n : String)
    (h : ∀ p ∈ kvs, p.1 ≠ n) : jget kvs n = Json.null := by
  induction kvs with
  | nil => simp [jget]
  | cons p tl ih =>
    obtain ⟨k, v⟩ := p
    have hk : k ≠ n := h (k, v) (by simp)
    rw [jget_cons_ne k n v tl hk]
    exact ih fun q hq => h q (by simp [hq])

/-- Every field contributes zero entries or exactly one entry carrying its
own name. -/
theorem filterField_shape (v : Json) (f : FieldSpec) :
    filterField v f = [] ∨ ∃ w, filterField v f = [(f.name, w)] := by
  obtain ⟨n, t, m, fo⟩ := f
  simp only [filterField.eq_def, FieldSpec.name]
  split
  · split
    · exact Or.inr ⟨Json.null, rfl⟩
    · exact Or.inl rfl
  · split
    · split
      · split
        · split
          · exact Or.inr ⟨_, rfl⟩
          · exact Or.inr ⟨_, rfl⟩
        · split
          · exact Or.inr ⟨_, rfl⟩
          · exact Or.inr ⟨_, rfl⟩
      · simp only [primFieldVal]
        split
        · split
          · exact Or.inr ⟨_, rfl⟩
          · exact Or.inr ⟨_, rfl⟩
        · split
          · exact Or.inr ⟨_, rfl⟩
          · exact Or.inr ⟨_, rfl⟩
    · simp only [primFieldVal]
      split
      · split
        · exact Or.inr ⟨_, rfl⟩
        · exact Or.inr ⟨_, rfl⟩
      · split
        · exact Or.inr ⟨_, rfl⟩
        · exact Or.inr ⟨_, rfl⟩

/-- An empty field contribution can only come from a null value on a
field that is not REQUIRED, so a null value reproduces it. -/
theorem filterField_empty_null (v : Json) (f : FieldSpec)
    (h : filterField v f = []) : filterField Json.null f = [] := by
  obtain ⟨n, t, m, fo⟩ := f
  have hm : m ≠ some "REQUIRED" := by
    intro hm
    revert h
    simp only [filterField.eq_def, hm]
    split
    · simp
    · split
      · split
        · split
          · split <;> simp
          · split <;> simp
        · simp only [primFieldVal]
          split
          · split <;> simp
          · split <;> simp
      · simp only [primFieldVal]
        split
        · split <;> simp
        · split <;> simp
  simp [filterField.eq_def, Json.isNull, hm]

theorem lastWithName_mem (n : String) (l : List FieldSpec) (g : FieldSpec)
    (h : lastWithName n l = some g) : g ∈ l := by
  induction l with
  | nil => simp [lastWithName] at h
  | cons f rest ih =>
    simp only [lastWithName] at h
    revert h
    split
    · intro h
      cases h
      exact List.mem_cons_of_mem _ (ih (by assumption))
    · split
      · intro h
        cases h
        exact List.mem_cons_self _ _
      · intro h
        cases h

theorem lastWithName_name (n : String) (l : List FieldSpec) (g : FieldSpec)
    (h : lastWithName n l = some g) : g.name = n := by
  induction l with
  | nil => simp [lastWithName] at h
  | cons f rest ih =>
    simp only [lastWithName] at h
    revert h
    split
    · intro h
      cases h
      exact ih (by assumption)
    · split
      · intro h
        cases h
        assumption
      · intro h
        cases h

theorem dedupAux_subset (l : List FieldSpec) (seen : List String)
    (g : FieldSpec) (h : g ∈ dedupAux l seen) : g ∈ l := by
  induction l generalizing seen with
  | nil => simp [dedupAux] at h
  | cons f rest ih =>
    simp only [dedupAux] at h
    revert h
    split
    · intro h
      exact List.mem_cons_of_mem _ (ih _ h)
    · intro h
      rcases List.mem_cons.1 h with he | ht
      · subst he
        cases hl : lastWithName f.name rest with
        | none => simp [hl]
        | some g0 =>
          simp only [hl, Option.getD_some]
          exact List.mem_cons_of_mem _ (lastWithName_mem _ _ _ hl)
      · exact List.mem_cons_of_mem _ (ih _ ht)

theorem dedupAux_names (l : List FieldSpec) :
    ∀ seen : List String,
      ((dedupAux l seen).map FieldSpec.name).Nodup ∧
        ∀ g ∈ dedupAux l seen, g.name ∉ seen := by
  induction l with
  | nil => intro seen; simp [dedupAux]
  | cons f rest ih =>
    intro seen
    simp only [dedupAux]
    split
    · exact ih seen
    · obtain ⟨hnd, hout⟩ := ih (f.name :: seen)
      have hhead : ((lastWithName f.name rest).getD f).name = f.name := by
        cases hl : lastWithName f.name rest with
        | none => simp [hl]
        | some g0 => simpa [hl] using lastWithName_name _ _ _ hl
      constructor
      · simp only [List.map_cons, List.nodup_cons]
        constructor
        · rw [hhead]
          intro hmem
          rcases List.mem_map.1 hmem with ⟨g, hg, hgname⟩
          exact hout g hg (by simp [hgname])
        · exact hnd
      · intro g hg
        rcases List.mem_cons.1 hg with he | ht
        · subst he
          rw [hhead]
          assumption
        · have := hout g ht
          intro hmem
          exact this (List.mem_cons_of_mem _ hmem)

theorem dedupSchema_subset (S : List FieldSpec) (g : FieldSpec)
    (h : g ∈ dedupSchema S) : g ∈ S :=
  dedupAux_subset S [] g h

theorem dedupSchema_names_nodup (S : List FieldSpec) :
    ((dedupSchema S).map FieldSpec.name).Nodup :=
  (dedupAux_names S []).1

theorem allStrict_mem (S : List FieldSpec) (h : allStrict S = true)
    (f : FieldSpec) (hf : f ∈ S) : fieldStrict f = true := by
  induction S with
  | nil => simp at hf
  | cons g rest ih =>
    simp only [allStrict, Bool.and_eq_true] at h
    rcases List.mem_cons.1 hf with he | ht
    · subst he; exact h.1
    · exact ih h.2 ht

theorem filterFields_name_mem (D : List FieldSpec)
    (kvs : List (String × Json)) (p : String × Json)
    (h : p ∈ filterFields kvs D) : p.1 ∈ D.map FieldSpec.name := by
  induction D with
  | nil => simp [filterFields] at h
  | cons f rest ih =>
    simp only [filterFields] at h
    rcases List.mem_append.1 h with hh | ht
    · rcases filterField_shape (jget kvs f.name) f with he | ⟨w, he⟩
      · rw [he] at hh
        simp at hh
      · rw [he] at hh
        simp only [List.mem_singleton] at hh
        subst hh
        simp
    · simp [ih ht]

theorem filterFields_cons_irrel (D : List FieldSpec) (k : String) (w : Json)
    (tl : List (String × Json)) (h : ∀ g ∈ D, g.name ≠ k) :
    filterFields ((k, w) :: tl) D = filterFields tl D := by
  induction D with
  | nil => simp [filterFields]
  | cons f rest ih =>
    have hf : k ≠ f.name := fun he => h f (List.mem_cons_self _ _) he.symm
    simp only [filterFields, jget_cons_ne k f.name w tl hf]
    rw [ih fun g hg => h g (List.mem_cons_of_mem _ hg)]

/-- The projector always returns a mapping. -/
theorem filter_obj_shape (x : Json) (S : List FieldSpec) :
    ∃ kvs, filter_json_to_schema x S = Json.obj kvs := by
  cases x <;> simp [filter_json_to_schema]

/-- A non-mapping input projects to the empty mapping. -/
theorem filter_nonobj (x : Json) (S : List FieldSpec)
    (h : x.isObj = false) : filter_json_to_schema x S = Json.obj [] := by
  cases x <;> simp_all [filter_json_to_schema, Json.isObj]

/-! # Branch equations for the projector -/

/-- True exactly for array values. -/
def Json.isArr : Json → Bool
  | .arr _ => true
  | _ => false

theorem filterField_null_case (v : Json) (hv : v.isNull = true)
    (n t : String) (m : Option String) (fo : Option (List FieldSpec)) :
    filterField v (FieldSpec.mk n t m fo) =
      if m = some "REQUIRED" then [(n, Json.null)] else [] := by
  cases v <;> simp_all [Json.isNull, filterField.eq_def]

theorem filterField_nofields (v : Json) (hv : v.isNull = false)
    (n t : String) (m : Option String) :
    filterField v (FieldSpec.mk n t m none) = primFieldVal v n m := by
  simp [filterField.eq_def, hv]

theorem filterField_nonrecord (v : Json) (hv : v.isNull = false)
    (n t : String) (ht : t ≠ "RECORD") (m : Option String)
    (subfs : List FieldSpec) :
    filterField v (FieldSpec.mk n t m (some subfs)) = primFieldVal v n m := by
  simp [filterField.eq_def, hv, ht]

theorem filterField_record_rep_arr (items : List Json) (n : String)
    (subfs : List FieldSpec) :
    filterField (Json.arr items)
        (FieldSpec.mk n "RECORD" (some "REPEATED") (some subfs)) =
      [(n, Json.arr (projectItems items subfs))] := by
  simp [filterField.eq_def, Json.isNull]

theorem filterField_record_rep_nonarr (v : Json) (hv : v.isNull = false)
    (ha : v.isArr = false) (n : String) (subfs : List FieldSpec) :
    filterField v (FieldSpec.mk n "RECORD" (some "REPEATED") (some subfs)) =
      [(n, Json.arr [])] := by
  cases v <;> simp_all [Json.isNull, Json.isArr, filterField.eq_def]

theorem filterField_record_obj (o : List (String × Json)) (n : String)
    (m : Option String) (hm : m ≠ some "REPEATED") (subfs : List FieldSpec) :
    filterField (Json.obj o) (FieldSpec.mk n "RECORD" m (some subfs)) =
      [(n, filter_json_to_schema (Json.obj o) subfs)] := by
  simp [filterField.eq_def, Json.isNull, hm]

theorem filterField_record_mismatch (v : Json) (hv : v.isNull = false)
    (ho : v.isObj = false) (n : String) (m : Option String)
    (hm : m ≠ some "REPEATED") (subfs : List FieldSpec) :
    filterField v (FieldSpec.mk n "RECORD" m (some subfs)) =
      [(n, Json.null)] := by
  cases v <;> simp_all [Json.isNull, Json.isObj, filterField.eq_def]

theorem primFieldVal_rep_arr (items : List Json) (n : String) :
    primFieldVal (Json.arr items) n (some "REPEATED") =
      [(n, Json.arr (items.filter Json.isPrimitive))] := by
  simp [primFieldVal]

theorem primFieldVal_rep_nonarr (v : Json) (ha : v.isArr = false)
    (n : String) :
    primFieldVal v n (some "REPEATED") = [(n, Json.arr [])] := by
  cases v <;> simp_all [Json.isArr, primFieldVal]

theorem primFieldVal_scalar (v : Json) (hs : v.isScalarLike = true)
    (n : String) (m : Option String) (hm : m ≠ some "REPEATED") :
    primFieldVal v n m = [(n, v)] := by
  simp [primFieldVal, hm, hs]

theorem primFieldVal_invalid (v : Json) (hs : v.isScalarLike = false)
    (n : String) (m : Option String) (hm : m ≠ some "REPEATED") :
    primFieldVal v n m = [(n, Json.null)] := by
  simp [primFieldVal, hm, hs]

/-! # Lemmas about projectItems -/

theorem mem_projectItems (items : List Json) (subfs : List FieldSpec)
    (e : Json) (h : e ∈ projectItems items subfs) :
    ∃ o, e = filter_json_to_schema (Json.obj o) subfs := by
  induction items with
  | nil => simp [projectItems] at h
  | cons item rest ih =>
    cases item with
    | obj o =>
      simp only [projectItems] at h
      rcases List.mem_cons.1 h with he | ht
      · exact ⟨o, he⟩
      · exact ih ht
    | null => simp only [projectItems] at h; exact ih h
    | bool b => simp only [projectItems] at h; exact ih h
    | num x => simp only [projectItems] at h; exact ih h
    | str s => simp only [projectItems] at h; exact ih h
    | arr l => simp only [projectItems] at h; exact ih h

theorem projectItems_fixed (subfs : List FieldSpec) (l : List Json)
    (h : ∀ e ∈ l, e.isObj = true ∧ filter_json_to_schema e subfs = e) :
    projectItems l subfs = l := by
  induction l with
  | nil => simp [projectItems]
  | cons e rest ih =>
    obtain ⟨hobj, hfix⟩ := h e (List.mem_cons_self _ _)
    have htl : projectItems rest subfs = rest :=
      ih fun x hx => h x (List.mem_cons_of_mem _ hx)
    cases e <;> simp_all [Json.isObj, projectItems]

theorem filter_isPrimitive_idem (l : List Json) :
    (l.filter Json.isPrimitive).filter Json.isPrimitive =
      l.filter Json.isPrimitive :=
  List.filter_eq_self.mpr fun _ ha => List.of_mem_filter ha

theorem sizeOf_subfields_lt (n t : String) (m : Option String)
    (subfs : List FieldSpec) :
    sizeOf subfs < sizeOf (FieldSpec.mk n t m (some subfs)) := by
  simp
  omega

/-! # Stability of re-projection on strict schemas -/

theorem primFieldVal_stable (n : String) (m : Option String)
    (hmode : m = some "REQUIRED" ∨ m = some "REPEATED")
    (v w : Json) (hvn : v.isNull = false)
    (h : primFieldVal v n m = [(n, w)]) :
    (w = Json.null ∧ m = some "REQUIRED") ∨
      (w.isNull = false ∧ primFieldVal w n m = [(n, w)]) := by
  by_cases hrep : m = some "REPEATED"
  · subst hrep
    cases v with
    | arr items =>
      rw [primFieldVal_rep_arr] at h
      simp only [List.cons.injEq, Prod.mk.injEq, true_and, and_true] at h
      subst h
      refine Or.inr ⟨rfl, ?_⟩
      rw [primFieldVal_rep_arr, filter_isPrimitive_idem]
    | null => simp [Json.isNull] at hvn
    | bool b =>
      rw [primFieldVal_rep_nonarr (Json.bool b) rfl] at h
      simp only [List.cons.injEq, Prod.mk.injEq, true_and, and_true] at h
      subst h
      exact Or.inr ⟨rfl, by simp [primFieldVal_rep_arr]⟩
    | num x =>
      rw [primFieldVal_rep_nonarr (Json.num x) rfl] at h
      simp only [List.cons.injEq, Prod.mk.injEq, true_and, and_true] at h
      subst h
      exact Or.inr ⟨rfl, by simp [primFieldVal_rep_arr]⟩
    | str s =>
      rw [primFieldVal_rep_nonarr (Json.str s) rfl] at h
      simp only [List.cons.injEq, Prod.mk.injEq, true_and, and_true] at h
      subst h
      exact Or.inr ⟨rfl, by simp [primFieldVal_rep_arr]⟩
    | obj o =>
      rw [primFieldVal_rep_nonarr (Json.obj o) rfl] at h
      simp only [List.cons.injEq, Prod.mk.injEq, true_and, and_true] at h
      subst h
      exact Or.inr ⟨rfl, by simp [primFieldVal_rep_arr]⟩
  · have hm : m = some "REQUIRED" := hmode.resolve_right hrep
    by_cases hsc : v.isScalarLike = true
    · rw [primFieldVal_scalar v hsc n m hrep] at h
      simp only [List.cons.injEq, Prod.mk.injEq, true_and, and_true] at h
      subst h
      exact Or.inr ⟨hvn, primFieldVal_scalar v hsc n m hrep⟩
    · simp only [Bool.not_eq_true] at hsc
      rw [primFieldVal_invalid v hsc n m hrep] at h
      simp only [List.cons.injEq, Prod.mk.injEq, true_and, and_true] at h
      exact Or.inl ⟨h.symm, hm⟩

theorem filterField_stable (f : FieldSpec) (hf : fieldStrict f = true)
    (IH : ∀ S', sizeOf S' < sizeOf f → allStrict S' = true →
      ∀ kvs, filter_json_to_schema (filter_json_to_schema (Json.obj kvs) S') S' =
        filter_json_to_schema (Json.obj kvs) S')
    (v w : Json) (h : filterField v f = [(f.name, w)]) :
    filterField w f = [(f.name, w)] := by
  obtain ⟨n, t, m, fo⟩ := f
  simp only [FieldSpec.name] at h ⊢
  rw [fieldStrict.eq_def] at hf
  simp only [Bool.and_eq_true, Bool.or_eq_true, beq_iff_eq] at hf
  obtain ⟨hmode, hsub⟩ := hf
  by_cases hvt : v.isNull = true
  · rw [filterField_null_case v hvt] at h
    by_cases hm : m = some "REQUIRED"
    · rw [if_pos hm] at h
      simp only [List.cons.injEq, Prod.mk.injEq, true_and, and_true] at h
      subst h
      rw [filterField_null_case Json.null rfl, if_pos hm]
    · rw [if_neg hm] at h
      simp at h
  · simp only [Bool.not_eq_true] at hvt
    cases fo with
    | none =>
      rw [filterField_nofields v hvt] at h
      rcases primFieldVal_stable n m hmode v w hvt h with ⟨hw, hm⟩ | ⟨hwn, hp⟩
      · subst hw
        rw [filterField_null_case Json.null rfl, if_pos hm]
      · rw [filterField_nofields w hwn]
        exact hp
    | some subfs =>
      have hsubs : allStrict subfs = true := hsub
      have IHsub := IH subfs (sizeOf_subfields_lt n t m subfs) hsubs
      by_cases ht : t = "RECORD"
      · subst ht
        by_cases hrep : m = some "REPEATED"
        · subst hrep
          cases v with
          | null => simp [Json.isNull] at hvt
          | arr items =>
            rw [filterField_record_rep_arr] at h
            simp only [List.cons.injEq, Prod.mk.injEq, true_and, and_true] at h
            subst h
            rw [filterField_record_rep_arr]
            have hfix : projectItems (projectItems items subfs) subfs =
                projectItems items subfs := by
              apply projectItems_fixed
              intro e he
              obtain ⟨o, rfl⟩ := mem_projectItems items subfs e he
              constructor
              · obtain ⟨kvs', hk⟩ := filter_obj_shape (Json.obj o) subfs
                rw [hk]
                simp [Json.isObj]
              · exact IHsub o
            rw [hfix]
          | bool b =>
            rw [filterField_record_rep_nonarr (Json.bool b) rfl rfl] at h
            simp only [List.cons.injEq, Prod.mk.injEq, true_and, and_true] at h
            subst h
            rw [filterField_record_rep_arr]
            simp [projectItems]
          | num x =>
            rw [filterField_record_rep_nonarr (Json.num x) rfl rfl] at h
            simp only [List.cons.injEq, Prod.mk.injEq, true_and, and_true] at h
            subst h
            rw [filterField_record_rep_arr]
            simp [projectItems]
          | str s =>
            rw [filterField_record_rep_nonarr (Json.str s) rfl rfl] at h
            simp only [List.cons.injEq, Prod.mk.injEq, true_and, and_true] at h
            subst h
            rw [filterField_record_rep_arr]
            simp [projectItems]
          | obj o =>
            rw [filterField_record_rep_nonarr (Json.obj o) rfl rfl] at h
            simp only [List.cons.injEq, Prod.mk.injEq, true_and, and_true] at h
            subst h
            rw [filterField_record_rep_arr]
            simp [projectItems]
        · have hm : m = some "REQUIRED" := hmode.resolve_right hrep
          cases v with
          | null => simp [Json.isNull] at hvt
          | obj ovs =>
            rw [filterField_record_obj ovs n m hrep] at h
            simp only [List.cons.injEq, Prod.mk.injEq, true_and, and_true] at h
            subst h
            obtain ⟨kvs', hk⟩ := filter_obj_shape (Json.obj ovs) subfs
            rw [hk, filterField_record_obj kvs' n m hrep]
            have hfix := IHsub ovs
            rw [hk] at hfix
            rw [hfix]
          | bool b =>
            rw [filterField_record_mismatch (Json.bool b) rfl rfl n m hrep subfs] at h
            simp only [List.cons.injEq, Prod.mk.injEq, true_and, and_true] at h
            subst h
            rw [filterField_null_case Json.null rfl, if_pos hm]
          | num x =>
            rw [filterField_record_mismatch (Json.num x) rfl rfl n m hrep subfs] at h
            simp only [List.cons.injEq, Prod.mk.injEq, true_and, and_true] at h
            subst h
            rw [filterField_null_case Json.null rfl, if_pos hm]
          | str s =>
            rw [filterField_record_mismatch (Json.str s) rfl rfl n m hrep subfs] at h
            simp only [List.cons.injEq, Prod.mk.injEq, true_and, and_true] at h
            subst h
            rw [filterField_null_case Json.null rfl, if_pos hm]
          | arr l =>
            rw [filterField_record_mismatch (Json.arr l) rfl rfl n m hrep subfs] at h
            simp only [List.cons.injEq, Prod.mk.injEq, true_and, and_true] at h
            subst h
            rw [filterField_null_case Json.null rfl, if_pos hm]
      · rw [filterField_nonrecord v hvt n t ht m subfs] at h
        rcases primFieldVal_stable n m hmode v w hvt h with ⟨hw, hm⟩ | ⟨hwn, hp⟩
        · subst hw
          rw [filterField_null_case Json.null rfl, if_pos hm]
        · rw [filterField_nonrecord w hwn n t ht m subfs]
          exact hp

theorem filterFields_stable (D : List FieldSpec)
    (hnd : (D.map FieldSpec.name).Nodup)
    (hstab : ∀ f ∈ D, ∀ v w, filterField v f = [(f.name, w)] →
      filterField w f = [(f.name, w)]) :
    ∀ kvs : List (String × Json),
      filterFields (filterFields kvs D) D = filterFields kvs D := by
  induction D with
  | nil => intro kvs; simp [filterFields]
  | cons f rest ih =>
    intro kvs
    simp only [List.map_cons, List.nodup_cons] at hnd
    obtain ⟨hfn, hndr⟩ := hnd
    have hrestname : ∀ g ∈ rest, g.name ≠ f.name := by
      intro g hg he
      exact hfn (List.mem_map.2 ⟨g, hg, he⟩)
    have ihr := ih hndr (fun g hg => hstab g (List.mem_cons_of_mem _ hg))
    rcases filterField_shape (jget kvs f.name) f with he | ⟨w, he⟩
    · have hT : filterFields kvs (f :: rest) = filterFields kvs rest := by
        simp only [filterFields, he, List.nil_append]
      rw [hT]
      have hnull : jget (filterFields kvs rest) f.name = Json.null := by
        apply jget_eq_null_of_names
        intro p hp hpe
        have hmem := filterFields_name_mem rest kvs p hp
        rw [hpe] at hmem
        exact hfn hmem
      have h0 : filterField (jget (filterFields kvs rest) f.name) f = [] := by
        rw [hnull]
        exact filterField_empty_null _ f he
      simp only [filterFields, h0, List.nil_append]
      exact ihr _
    · have hT : filterFields kvs (f :: rest) =
          (f.name, w) :: filterFields kvs rest := by
        simp only [filterFields, he, List.singleton_append]
      rw [hT]
      simp only [filterFields, jget_cons_self]
      rw [hstab f (List.mem_cons_self _ _) _ w he]
      rw [filterFields_cons_irrel rest f.name w _ hrestname]
      rw [ihr]
      simp

theorem filter_idem_aux : ∀ (n : Nat) (S : List FieldSpec), sizeOf S ≤ n →
    allStrict S = true → ∀ kvs : List (String × Json),
      filter_json_to_schema (filter_json_to_schema (Json.obj kvs) S) S =
        filter_json_to_schema (Json.obj kvs) S := by
  intro n
  induction n with
  | zero =>
    intro S hS
    exfalso
    cases S with
    | nil => simp at hS
    | cons f rest =>
      simp only [List.cons.sizeOf_spec] at hS
      omega
  | succ n ihn =>
    intro S hS hstr kvs
    have hD : ∀ kv : List (String × Json),
        filter_json_to_schema (Json.obj kv) S =
          Json.obj (filterFields kv (dedupSchema S)) := by
      intro kv
      simp [filter_json_to_schema]
    rw [hD kvs, hD (filterFields kvs (dedupSchema S))]
    congr 1
    apply filterFields_stable
    · exact dedupSchema_names_nodup S
    · intro f hfD v w hvw
      apply filterField_stable f
        (allStrict_mem S hstr f (dedupSchema_subset S f hfD)) _ v w hvw
      intro S' hS' hstr' kvs'
      apply ihn S' _ hstr' kvs'
      have h1 : sizeOf f < sizeOf S :=
        List.sizeOf_lt_of_mem (dedupSchema_subset S f hfD)
      omega

/-! # Claim theorems for the schema projector -/

/-- C1: for every JSON value x (including non-mapping top-level values,
deeply nested arrays of wrong type, and empty objects) and every schema,
projection is total: the Lean embedding is a total function accepted by
the termination checker, its result is always a mapping, and a non-mapping
input degrades to the empty mapping rather than failing. -/
theorem projection_totality (x : Json) (S : List FieldSpec) :
    (∃ kvs, filter_json_to_schema x S = Json.obj kvs) ∧
      (x.isObj = false → filter_json_to_schema x S = Json.obj []) :=
  ⟨filter_obj_shape x S, filter_nonobj x S⟩

/-- Witness for C1 at a concrete non-mapping input. -/
theorem projection_totality_witness :
    filter_json_to_schema (Json.arr [Json.num 1])
        [FieldSpec.mk "id" "STRING" (some "REQUIRED") none] = Json.obj [] :=
  (projection_totality (Json.arr [Json.num 1])
    [FieldSpec.mk "id" "STRING" (some "REQUIRED") none]).2 rfl

/-- C2 counterexample: projection is not idempotent as claimed. With the
schema holding the single field named a of type STRING with no mode, the
input mapping binding a to an empty array projects to a mapping binding a
to null (the type-mismatch default), and re-projecting that output drops
the nulled field, yielding the empty mapping instead. -/
theorem projection_idempotence_counterexample :
    filter_json_to_schema
        (filter_json_to_schema (Json.obj [("a", Json.arr [])])
          [FieldSpec.mk "a" "STRING" none none])
        [FieldSpec.mk "a" "STRING" none none] ≠
      filter_json_to_schema (Json.obj [("a", Json.arr [])])
        [FieldSpec.mk "a" "STRING" none none] := by
  have h1 : filter_json_to_schema (Json.obj [("a", Json.arr [])])
      [FieldSpec.mk "a" "STRING" none none] = Json.obj [("a", Json.null)] := by
    simp [filter_json_to_schema, filterFields, filterField, primFieldVal,
      dedupSchema, dedupAux, lastWithName, Option.getD, jget, Json.isNull,
      Json.isScalarLike, FieldSpec.name]
  have h2 : filter_json_to_schema (Json.obj [("a", Json.null)])
      [FieldSpec.mk "a" "STRING" none none] = Json.obj [] := by
    simp [filter_json_to_schema, filterFields, filterField, primFieldVal,
      dedupSchema, dedupAux, lastWithName, Option.getD, jget, Json.isNull,
      Json.isScalarLike, FieldSpec.name]
  rw [h1, h2]
  simp

/-- C2 (amended): projection is idempotent on mapping inputs whenever
every field of the schema, at every nesting depth, has mode REQUIRED or
REPEATED: re-projecting an already-projected mapping is a no-op. In
general it can fail: a type-mismatched value in a field with any other
mode projects to null, which the second projection drops, and a
non-mapping input projects to the empty mapping, which the second
projection refills with nulls at REQUIRED fields. -/
theorem projection_idempotent_strict (S : List FieldSpec)
    (hstr : allStrict S = true) (kvs : List (String × Json)) :
    filter_json_to_schema (filter_json_to_schema (Json.obj kvs) S) S =
      filter_json_to_schema (Json.obj kvs) S :=
  filter_idem_aux (sizeOf S) S le_rfl hstr kvs

/-- Witness for the amended C2 at a concrete schema and input. -/
theorem projection_idempotent_strict_witness :
    filter_json_to_schema
        (filter_json_to_schema
          (Json.obj [("id", Json.num 7), ("junk", Json.str "x")])
          [FieldSpec.mk "id" "STRING" (some "REQUIRED") none,
            FieldSpec.mk "tags" "STRING" (some "REPEATED") none])
        [FieldSpec.mk "id" "STRING" (some "REQUIRED") none,
          FieldSpec.mk "tags" "STRING" (some "REPEATED") none] =
      filter_json_to_schema
        (Json.obj [("id", Json.num 7), ("junk", Json.str "x")])
        [FieldSpec.mk "id" "STRING" (some "REQUIRED") none,
          FieldSpec.mk "tags" "STRING" (some "REPEATED") none] :=
  projection_idempotent_strict
    [FieldSpec.mk "id" "STRING" (some "REQUIRED") none,
      FieldSpec.mk "tags" "STRING" (some "REPEATED") none]
    (by decide) [("id", Json.num 7), ("junk", Json.str "x")]

/-- C8: a field absent from (or explicitly null in) the input mapping is
emitted as the field name bound to null when the mode is REQUIRED, and
omitted entirely otherwise (NULLABLE, REPEATED, or no mode); stated for
the singleton schema the claim describes. -/
theorem required_field_nulling (x : List (String × Json)) (f : FieldSpec)
    (h : jget x f.name = Json.null) :
    filter_json_to_schema (Json.obj x) [f] =
      Json.obj (if f.mode = some "REQUIRED"
        then [(f.name, Json.null)] else []) := by
  obtain ⟨n, t, m, fo⟩ := f
  simp only [FieldSpec.name] at h
  have hD : dedupSchema [FieldSpec.mk n t m fo] = [FieldSpec.mk n t m fo] := by
    simp [dedupSchema, dedupAux, lastWithName]
  have h1 : filter_json_to_schema (Json.obj x) [FieldSpec.mk n t m fo] =
      Json.obj (filterFields x (dedupSchema [FieldSpec.mk n t m fo])) := by
    simp [filter_json_to_schema]
  rw [h1, hD]
  simp only [filterFields, FieldSpec.name, h, List.append_nil]
  rw [filterField_null_case Json.null rfl]
  simp [FieldSpec.mode]

/-- Witness for C8: the two concrete instances of the claim. -/
theorem required_field_nulling_witness :
    filter_json_to_schema (Json.obj [])
        [FieldSpec.mk "id" "STRING" (some "REQUIRED") none] =
      Json.obj [("id", Json.null)] ∧
    filter_json_to_schema (Json.obj [])
        [FieldSpec.mk "id" "STRING" (some "NULLABLE") none] =
      Json.obj [] := by
  constructor
  · have h := required_field_nulling []
      (FieldSpec.mk "id" "STRING" (some "REQUIRED") none) rfl
    simpa using h
  · have h := required_field_nulling []
      (FieldSpec.mk "id" "STRING" (some "NULLABLE") none) rfl
    simpa using h

/-! # Claim theorems for the retrieval engine -/

theorem is2xx_ne_429 (s : Nat) (h : is2xx s = true) : ¬(s = 429) := by
  intro he
  subst he
  simp [is2xx] at h

theorem runEngine_goodChain (maxR : Nat) (pages : List Page) :
    ∀ (d : String) (a : Nat) (recs : List Json),
      goodChain d pages = true →
      runEngine maxR ⟨some d, a, recs⟩ pages =
        .ok (recs ++ (pages.map Page.records).flatten) .completed [] := by
  induction pages with
  | nil =>
    intro d a recs h
    simp [goodChain] at h
  | cons p rest ih =>
    intro d a recs h
    simp only [goodChain, Bool.and_eq_true] at h
    obtain ⟨h2xx, hnext⟩ := h
    have h429 : ¬(p.status = 429) := is2xx_ne_429 _ h2xx
    cases hn : p.next with
    | none =>
      rw [hn] at hnext
      have hrest : rest = [] := by
        cases rest with
        | nil => rfl
        | cons q t => simp [List.isEmpty] at hnext
      subst hrest
      simp [runEngine, engineStep, h429, h2xx, hn]
    | some d2 =>
      rw [hn] at hnext
      simp only [Bool.and_eq_true] at hnext
      obtain ⟨hne, hgc⟩ := hnext
      have hne' : ¬(d2 = d) := by simpa using hne
      have step : engineStep maxR ⟨some d, a, recs⟩ d p =
          .advance ⟨some d2, 0, recs ++ p.records⟩ := by
        simp [engineStep, h429, h2xx, hn, hne']
      simp only [runEngine, step]
      rw [ih d2 0 (recs ++ p.records) hgc]
      simp

/-- C3: spec-modelled. For every finite response script that forms a
clean chain from the initial descriptor (each fetch 2xx, each page naming
a fresh next descriptor, the last page terminal), the traversal returns
exactly the concatenation of all pages' record lists, in page order and
within-page order, with reason completed and no backoff sleeps. -/
theorem pagination_termination (maxR : Nat) (d : String) (pages : List Page)
    (h : goodChain d pages = true) :
    runEngine maxR ⟨some d, 0, []⟩ pages =
      .ok ((pages.map Page.records).flatten) .completed [] := by
  have h2 := runEngine_goodChain maxR pages d 0 [] h
  simpa using h2

/-- Witness for C3 on a concrete two-page traversal. -/
theorem pagination_termination_witness :
    runEngine 5 ⟨some "page1", 0, []⟩
        [⟨200, none, "", [Json.num 1, Json.num 2], some "page2"⟩,
          ⟨200, none, "", [Json.num 3], none⟩] =
      .ok [Json.num 1, Json.num 2, Json.num 3] .completed [] := by
  have h := pagination_termination 5 "page1"
    [⟨200, none, "", [Json.num 1, Json.num 2], some "page2"⟩,
      ⟨200, none, "", [Json.num 3], none⟩] (by decide)
  simpa using h

/-- C4: spec-modelled; the wait formula itself is the code of
src/okta_client.py lines 55-57 and src/entra_client.py lines 154-156. On
a 429 with budget left, the engine sleeps exactly
max(Retry-After parsed as seconds, defaulting to 1 when absent,
min(2 ** attempts, 60)), increments attempts, and keeps the same current
descriptor and records; and after any successful page the attempts
counter is 0. -/
theorem backoff_formula (maxR : Nat) (s : EngineState) (d : String)
    (p : Page) (h429 : p.status = 429) (hbudget : s.attempts < maxR) :
    (p.retryAfter = none →
      engineStep maxR s d p =
        .sleepRetry (max 1 (min ((2 : Int) ^ s.attempts) 60))
          ⟨s.current, s.attempts + 1, s.records⟩) ∧
    (∀ hdr n, p.retryAfter = some hdr → pyIntOfString hdr = some n →
      engineStep maxR s d p =
        .sleepRetry (max n (min ((2 : Int) ^ s.attempts) 60))
          ⟨s.current, s.attempts + 1, s.records⟩) ∧
    (∀ (q : Page) (s2 : EngineState) (d2 : String) (s' : EngineState),
      is2xx q.status = true → engineStep maxR s2 d2 q = .advance s' →
      s'.attempts = 0) := by
  have hnle : ¬(maxR ≤ s.attempts) := by omega
  refine ⟨?_, ?_, ?_⟩
  · intro hra
    simp [engineStep, h429, hnle, hra, backoffWait]
  · intro hdr n hra hint
    simp [engineStep, h429, hnle, hra, hint, backoffWait]
  · intro q s2 d2 s' hq hstep
    have hq429 : ¬(q.status = 429) := is2xx_ne_429 _ hq
    cases hn : q.next with
    | none =>
      simp only [engineStep, hq429, if_neg, if_false, hq, if_true, hn] at hstep
      cases hstep
      rfl
    | some d3 =>
      simp only [engineStep, hq429, if_neg, if_false, hq, if_true, hn] at hstep
      by_cases hd : d3 = d2
      · rw [if_pos hd] at hstep
        cases hstep
      · rw [if_neg hd] at hstep
        cases hstep
        rfl

/-- Witness for C4: concrete 429 with an integer Retry-After header. -/
theorem backoff_formula_witness :
    engineStep 5 ⟨some "u", 2, [Json.num 9]⟩ "u" ⟨429, some "7", "", [], none⟩ =
      .sleepRetry (max 7 (min ((2 : Int) ^ 2) 60)) ⟨some "u", 3, [Json.num 9]⟩ :=
  (backoff_formula 5 ⟨some "u", 2, [Json.num 9]⟩ "u"
    ⟨429, some "7", "", [], none⟩ rfl (by decide)).2.1 "7" 7 rfl (by decide)

/-- C5: spec-modelled. A 429 arriving with the retry budget exhausted
ends the traversal normally: the records accumulated so far come back as
an ordinary result tagged rate_limited_exhausted, not as a raised
error. -/
theorem rate_limit_exhaustion (maxR a : Nat) (d : String)
    (recs : List Json) (p : Page) (rest : List Page)
    (h429 : p.status = 429) (hex : maxR ≤ a) :
    runEngine maxR ⟨some d, a, recs⟩ (p :: rest) =
      .ok recs .rate_limited_exhausted [] := by
  simp [runEngine, engineStep, h429, hex]

/-- Witness for C5 with one record already accumulated. -/
theorem rate_limit_exhaustion_witness :
    runEngine 3 ⟨some "u", 3, [Json.num 1]⟩ [⟨429, none, "", [], none⟩] =
      .ok [Json.num 1] .rate_limited_exhausted [] :=
  rate_limit_exhaustion 3 3 "u" [Json.num 1] ⟨429, none, "", [], none⟩ []
    rfl (by omega)

/-- C6: spec-modelled (src disagrees with itself: the Okta loops break
and return the records so far, the Entra user fetch raises). Any
non-2xx, non-429 response aborts the traversal at once, without retrying,
surfacing an error reason carrying the status and body, and the records
accumulated before the failure are discarded. -/
theorem http_error_aborts (maxR a : Nat) (d : String) (recs : List Json)
    (p : Page) (rest : List Page) (hne : ¬(p.status = 429))
    (hnot2xx : is2xx p.status = false) :
    runEngine maxR ⟨some d, a, recs⟩ (p :: rest) =
      .ok [] (.http_error p.status p.body) [] := by
  simp [runEngine, engineStep, hne, hnot2xx]

/-- Witness for C6 on a concrete 500 with accumulated records. -/
theorem http_error_aborts_witness :
    runEngine 3 ⟨some "u", 0, [Json.num 1]⟩ [⟨500, none, "boom", [], none⟩] =
      .ok [] (.http_error 500 "boom") [] :=
  http_error_aborts 3 0 "u" [Json.num 1] ⟨500, none, "boom", [], none⟩ []
    (by decide) (by decide)

/-- C7: spec-modelled (src applies the guard only to the Okta log
endpoint; the spec generalizes it engine-wide). When the extractor
returns the same descriptor on two consecutive successful pages, the
traversal stops right after the second fetch with reason stalled, keeping
both pages' records, instead of looping forever. -/
theorem stalled_guard (maxR : Nat) (d0 d1 : String) (p1 p2 : Page)
    (rest : List Page) (h1 : is2xx p1.status = true)
    (h2 : is2xx p2.status = true) (hn1 : p1.next = some d1)
    (hne : ¬(d1 = d0)) (hn2 : p2.next = some d1) :
    runEngine maxR ⟨some d0, 0, []⟩ (p1 :: p2 :: rest) =
      .ok (p1.records ++ p2.records) .stalled [] := by
  have e1 : ¬(p1.status = 429) := is2xx_ne_429 _ h1
  have e2 : ¬(p2.status = 429) := is2xx_ne_429 _ h2
  simp [runEngine, engineStep, e1, e2, h1, h2, hn1, hn2, hne]

/-- Witness for C7 on a concrete stalled two-page script. -/
theorem stalled_guard_witness :
    runEngine 3 ⟨some "a", 0, []⟩
        [⟨200, none, "", [Json.num 1], some "b"⟩,
          ⟨200, none, "", [Json.num 2], some "b"⟩] =
      .ok ([Json.num 1] ++ [Json.num 2]) .stalled [] :=
  stalled_guard 3 "a" "b" ⟨200, none, "", [Json.num 1], some "b"⟩
    ⟨200, none, "", [Json.num 2], some "b"⟩ []
    (by decide) (by decide) rfl (by decide) rfl

/-- C10: the Retry-After handling of src/okta_client.py line 55 and
src/entra_client.py line 154 applies int() to the raw header string. A
present header that is not an integer string (an HTTP-date, say) makes
int() raise an uncaught ValueError which aborts the traversal; the
backoff path completes normally exactly when the header is absent
(defaulting to 1) or parses as an integer. -/
theorem retry_after_parse (maxR a : Nat) (d : String) (recs : List Json)
    (p : Page) (rest : List Page) (h429 : p.status = 429)
    (hbudget : a < maxR) :
    (∀ hdr, p.retryAfter = some hdr → pyIntOfString hdr = none →
      runEngine maxR ⟨some d, a, recs⟩ (p :: rest) = .valueError hdr) ∧
    (p.retryAfter = none →
      ∃ w s', engineStep maxR ⟨some d, a, recs⟩ d p = .sleepRetry w s') ∧
    (∀ hdr n, p.retryAfter = some hdr → pyIntOfString hdr = some n →
      ∃ w s', engineStep maxR ⟨some d, a, recs⟩ d p = .sleepRetry w s') := by
  have hnle : ¬(maxR ≤ a) := by omega
  refine ⟨?_, ?_, ?_⟩
  · intro hdr hra hbad
    simp [runEngine, engineStep, h429, hnle, hra, hbad]
  · intro hra
    exact ⟨backoffWait 1 a, ⟨some d, a + 1, recs⟩,
      by simp [engineStep, h429, hnle, hra]⟩
  · intro hdr n hra hint
    exact ⟨backoffWait n a, ⟨some d, a + 1, recs⟩,
      by simp [engineStep, h429, hnle, hra, hint]⟩

/-- Witness for C10: an HTTP-date Retry-After value escapes as a
ValueError. -/
theorem retry_after_parse_witness :
    runEngine 5 ⟨some "u", 0, []⟩
        [⟨429, some "Wed, 21 Oct 2015 07:28:00 GMT", "", [], none⟩] =
      .valueError "Wed, 21 Oct 2015 07:28:00 GMT" :=
  (retry_after_parse 5 0 "u" []
    ⟨429, some "Wed, 21 Oct 2015 07:28:00 GMT", "", [], none⟩ [] rfl
    (by omega)).1 "Wed, 21 Oct 2015 07:28:00 GMT" rfl (by decide)

/-! # Claim theorem for the row mutation -/

theorem jget_pySetItem (row : List (String × Json)) (k : String) (v : Json) :
    jget (pySetItem row k v) k = v := by
  induction row with
  | nil => simp [pySetItem, jget]
  | cons p rest ih =>
    obtain ⟨k0, v0⟩ := p
    by_cases hk : k0 = k
    · subst hk
      simp [pySetItem, jget]
    · simp [pySetItem, hk, jget, ih]

/-- C9: with add_record_load_time left at its default of true,
insert_rows_json rewrites the caller's json_rows in place before any
insertion: afterwards the list has the same length, every row is the
caller's row with record_load_time added or overwritten, and looking the
key up on any row yields the timestamp taken while processing it. -/
theorem record_load_time_mutation (clock : Nat → String)
    (rows : List (List (String × Json))) :
    (insertRowsMutation clock true rows).length = rows.length ∧
    ∀ i, i < rows.length →
      (insertRowsMutation clock true rows).getD i [] =
        pySetItem (rows.getD i []) "record_load_time" (Json.str (clock i)) ∧
      jget ((insertRowsMutation clock true rows).getD i [])
          "record_load_time" = Json.str (clock i) := by
  constructor
  · simp [insertRowsMutation]
  · intro i hi
    have hrow : (insertRowsMutation clock true rows).getD i [] =
        pySetItem (rows.getD i []) "record_load_time" (Json.str (clock i)) := by
      simp only [insertRowsMutation, if_pos]
      rw [List.getD_eq_getElem?_getD, List.getElem?_map]
      rw [List.getElem?_enum]
      rw [List.getElem?_eq_getElem hi]
      rw [List.getD_eq_getElem?_getD, List.getElem?_eq_getElem hi]
      simp
    exact ⟨hrow, by rw [hrow, jget_pySetItem]⟩

/-- Witness for C9 on a concrete one-row list. -/
theorem record_load_time_mutation_witness :
    jget ((insertRowsMutation (fun _ => "t0") true
        [[("x", Json.num 1)]]).getD 0 []) "record_load_time" =
      Json.str "t0" :=
  ((record_load_time_mutation (fun _ => "t0") [[("x", Json.num 1)]]).2 0
    (by decide)).2
